import Mathlib

/-!
Verification of the datasoph-ai client-side conversation runtime.

Shallow embedding of the TypeScript sources:
- `ClaudeChatArea` / `handleSendMessage` (request lifecycle controller),
- the save-messages effect and `ClaudeSidebar.checkForNewMessages`
  (conversation store persistence),
- `useChatHistory` (session list, titles),
- `useFileUpload` (`FILE_SIZE_LIMITS`, `SUPPORTED_FORMATS`, `getFileInfo`,
  `validateFile` — the upload classifier),
- `MessageParser` (`parseHTMLContent`, `AIMessage` — the content parser).

Text is modelled as `List Char`; JavaScript string/regex operations are
embedded as executable functions over character lists.
-/

namespace Datasoph

abbrev Chars := List Char

/-- Character list of a string literal. -/
def s (x : String) : Chars := x.data

/-- JavaScript whitespace (ASCII subset) as recognized by String.prototype.trim. -/
def isWS (c : Char) : Bool :=
  c = ' ' || c = '\t' || c = '\n' || c = '\r' || c = '\x0b' || c = '\x0c'

/-- JavaScript String.prototype.trim: strip leading and trailing whitespace. -/
def trimJS (l : Chars) : Chars :=
  ((l.dropWhile isWS).reverse.dropWhile isWS).reverse

/-- JavaScript String.prototype.includes: substring containment. -/
def includesSub (l pat : Chars) : Bool :=
  l.tails.any (fun t => pat.isPrefixOf t)

/-- One message as stored by `ClaudeChatArea` (part_006): the `type` field is a
raw string tag (the chat area writes "user" / "assistant"; the sidebar compares
against "user" / "ai"), `content` the raw text, `id` the `Date.now()` stamp. -/
structure ChatMsg where
  id : Nat
  type : Chars
  content : Chars
deriving DecidableEq

/-- The component state of `ClaudeChatArea` relevant to the request lifecycle:
`messages`, `inputValue`, `isTyping`, `currentAbortController` (an opaque
controller id), the set of controller ids whose abort signal has been fired
(`signal.aborted`), and the list of network requests actually issued. -/
structure ChatState where
  messages : List ChatMsg
  inputValue : Chars
  isTyping : Bool
  currentAbortController : Option Nat
  aborted : List Nat
  issuedRequests : List Nat
deriving DecidableEq

/-- The synchronous prefix of `handleSendMessage` (part_006 lines 265-303):
if a request is in flight (`isTyping` with a live controller) the call aborts
it and stops; a blank message (or `isTyping` without a controller) is a no-op;
otherwise the trimmed user message is appended optimistically, typing starts,
a fresh controller `ctrl` is installed and one network request is issued. -/
def handleSendMessage (st : ChatState) (message : Chars) (ctrl now : Nat) : ChatState :=
  match st.isTyping, st.currentAbortController with
  | true, some c =>
      { st with aborted := c :: st.aborted, isTyping := false, currentAbortController := none }
  | _, _ =>
      if trimJS message = [] ∨ st.isTyping then st
      else
        { st with
          messages := st.messages ++ [{ id := now, type := s "user", content := trimJS message }],
          inputValue := [],
          isTyping := true,
          currentAbortController := some ctrl,
          issuedRequests := st.issuedRequests ++ [ctrl] }

/-- The success continuation of the network exchange started with controller
`c` (part_006 lines 314-349 and the finally block): if the abort signal was
fired nothing happens at all; otherwise the response text is appended as an
assistant message and the typing state is cleared. -/
def settleSuccess (st : ChatState) (c : Nat) (resp : Chars) (now : Nat) : ChatState :=
  if c ∈ st.aborted then st
  else
    { st with
      messages := st.messages ++ [{ id := now, type := s "assistant", content := resp }],
      isTyping := false,
      currentAbortController := none }

/-- Fixed fallback assistant text appended on a network/service failure. -/
def fallbackContent : Chars :=
  s "I apologize, but I'm having trouble processing your request right now. Please try again or upload your file again."

/-- The failure continuation (part_006 lines 351-376): if the abort signal was
fired nothing happens; otherwise the fixed fallback assistant message is
appended (the source defers the append by a 1s timer whose guard is evaluated
at settlement time, which is what is modelled) and typing is cleared. -/
def settleFailure (st : ChatState) (c : Nat) (now : Nat) : ChatState :=
  if c ∈ st.aborted then st
  else
    { st with
      messages := st.messages ++ [{ id := now, type := s "assistant", content := fallbackContent }],
      isTyping := false,
      currentAbortController := none }

/-- Marker tested by the save effect (String.includes argument, no comma). -/
def pngSig : Chars := s "data:image/png;base64"

/-- Literal prefix of the PNG replace regex (with the trailing comma). -/
def pngMarker : Chars := s "data:image/png;base64,"

/-- Replacement token written in place of a PNG payload before persisting. -/
def imagePlaceholder : Chars := s "[IMAGE_REMOVED_FOR_STORAGE]"

/-- Character class [^"] of the replace regexes. -/
def notQuote (c : Char) : Bool := c != '"'

/-- Global replace of the regex data:image\/png;base64,[^"]+ with the
placeholder, as in the save-messages effect. Fuel-indexed so that the
definition is structural; any fuel at least the input length gives the full
replacement pass (the regex scans left to right, each match consumes the
literal marker plus a maximal nonempty run of non-quote characters). -/
def pngReplaceF : Nat → Chars → Chars
  | 0, l => l
  | _ + 1, [] => []
  | fuel + 1, c :: rest =>
      if pngMarker.isPrefixOf (c :: rest) then
        let after := (c :: rest).drop pngMarker.length
        let payload := after.takeWhile notQuote
        if payload = [] then c :: pngReplaceF fuel rest
        else imagePlaceholder ++ pngReplaceF fuel (after.dropWhile notQuote)
      else c :: pngReplaceF fuel rest

def pngReplace (l : Chars) : Chars := pngReplaceF l.length l

/-- The sanitization applied to one content string by the save-messages effect
(part_006 lines 218-223): only contents mentioning the PNG marker are touched,
and only PNG payloads are replaced. -/
def sanitizeContent (content : Chars) : Chars :=
  if includesSub content pngSig then pngReplace content else content

def sanitizeMsg (m : ChatMsg) : ChatMsg := { m with content := sanitizeContent m.content }

/-- The payload written by the save-messages effect (part_006 line 224):
sanitize every message, then keep only the last 10 (Array.slice(-10)). -/
def persistMessages (msgs : List ChatMsg) : List ChatMsg :=
  let filtered := msgs.map sanitizeMsg
  filtered.drop (filtered.length - 10)

/-- A sidebar session record (`datasoph-chat-sessions` entries). -/
structure SessionH where
  id : Chars
  title : Chars
  messages : List ChatMsg
deriving DecidableEq

/-- A value held by one durable-storage key. -/
inductive StoredVal where
  | msgs : List ChatMsg → StoredVal
  | sessions : List SessionH → StoredVal
deriving DecidableEq

/-- The durable storage boundary: a key-value association plus a predicate
saying which writes the storage layer rejects (the quota model). -/
structure Storage where
  data : List (Chars × StoredVal)
  rejects : Chars → StoredVal → Bool

def keyHist : Chars := s "datasoph-chat-history"

def keySessions : Chars := s "datasoph-chat-sessions"

def getItem (st : Storage) (k : Chars) : Option StoredVal :=
  (st.data.find? (fun p => p.1 == k)).map (·.2)

/-- localStorage.setItem: either the write is rejected (storage unchanged,
second component false) or the key is updated. -/
def setItem (st : Storage) (k : Chars) (v : StoredVal) : Storage × Bool :=
  if st.rejects k v then (st, false)
  else ({ st with data := (k, v) :: st.data.filter (fun p => p.1 != k) }, true)

def removeItem (st : Storage) (k : Chars) : Storage :=
  { st with data := st.data.filter (fun p => p.1 != k) }

/-- The save-messages useEffect of `ClaudeChatArea` (part_006 lines 216-232):
one setItem attempt with the sanitized, windowed message list; if the write is
rejected the persisted key is removed — there is no retry. -/
def saveChatHistory (st : Storage) (msgs : List ChatMsg) : Storage :=
  match setItem st keyHist (StoredVal.msgs (persistMessages msgs)) with
  | (st1, true) => st1
  | (st1, false) => removeItem st1 keyHist

/-- One send call followed by the React render cycle: the save effect runs
exactly when the messages list changed. -/
def sendStep (st : ChatState) (store : Storage) (message : Chars) (ctrl now : Nat) :
    ChatState × Storage :=
  let st1 := handleSendMessage st message ctrl now
  (st1, if st1.messages = st.messages then store else saveChatHistory store st1.messages)

/-- C1: a send issued while a request is in flight takes the cancel branch;
once that cancellation marker is set, the late settlement of the canceled
exchange — success or failure — leaves the whole state, in particular the
stored message list, exactly as it was at cancellation time. -/
theorem canceled_request_settlement_is_noop (st : ChatState) (c : Nat) (m resp : Chars)
    (ctrl now now2 : Nat)
    (h1 : st.isTyping = true) (h2 : st.currentAbortController = some c) :
    settleSuccess (handleSendMessage st m ctrl now) c resp now2 = handleSendMessage st m ctrl now ∧
    settleFailure (handleSendMessage st m ctrl now) c now2 = handleSendMessage st m ctrl now ∧
    (handleSendMessage st m ctrl now).messages = st.messages := by
  simp [handleSendMessage, h1, h2, settleSuccess, settleFailure]

theorem canceled_request_settlement_is_noop_witness :
    let st : ChatState :=
      { messages := [⟨1, s "user", s "hi"⟩], inputValue := [], isTyping := true,
        currentAbortController := some 3, aborted := [], issuedRequests := [3] }
    settleSuccess (handleSendMessage st (s "stop") 4 5) 3 (s "late reply") 6 =
      handleSendMessage st (s "stop") 4 5 ∧
    settleFailure (handleSendMessage st (s "stop") 4 5) 3 6 =
      handleSendMessage st (s "stop") 4 5 ∧
    (handleSendMessage st (s "stop") 4 5).messages = st.messages := by
  exact canceled_request_settlement_is_noop _ 3 _ _ 4 5 6 rfl rfl

/-- C5: calling send while a handle is active cancels the prior handle and
issues nothing new — no message appended, no request issued, typing cleared,
the prior controller aborted and dropped. -/
theorem send_while_active_cancels (st : ChatState) (c : Nat) (m : Chars) (ctrl now : Nat)
    (h1 : st.isTyping = true) (h2 : st.currentAbortController = some c) :
    (handleSendMessage st m ctrl now).messages = st.messages ∧
    (handleSendMessage st m ctrl now).issuedRequests = st.issuedRequests ∧
    (handleSendMessage st m ctrl now).isTyping = false ∧
    (handleSendMessage st m ctrl now).currentAbortController = none ∧
    (handleSendMessage st m ctrl now).aborted = c :: st.aborted := by
  simp [handleSendMessage, h1, h2]

theorem send_while_active_cancels_witness :
    let st : ChatState :=
      { messages := [⟨1, s "user", s "q"⟩], inputValue := [], isTyping := true,
        currentAbortController := some 9, aborted := [], issuedRequests := [9] }
    (handleSendMessage st (s "next question") 10 11).messages = st.messages ∧
    (handleSendMessage st (s "next question") 10 11).issuedRequests = st.issuedRequests ∧
    (handleSendMessage st (s "next question") 10 11).isTyping = false ∧
    (handleSendMessage st (s "next question") 10 11).currentAbortController = none ∧
    (handleSendMessage st (s "next question") 10 11).aborted = 9 :: st.aborted := by
  exact send_while_active_cancels _ 9 _ 10 11 rfl rfl

/-- Helper: a list of whitespace characters trims to nothing. -/
theorem trimJS_eq_nil_of_all_ws (m : Chars) (h : m.all isWS = true) : trimJS m = [] := by
  have hdrop : m.dropWhile isWS = [] := by
    rw [List.dropWhile_eq_nil_iff]
    intro x hx
    exact List.all_eq_true.mp h x hx
  simp [trimJS, hdrop]

/-- C10: a send with an empty or all-whitespace message while no request is in
flight changes nothing: component state (messages, typing, controller) and the
durable storage are returned untouched. -/
theorem send_blank_is_noop (st : ChatState) (store : Storage) (m : Chars) (ctrl now : Nat)
    (h1 : st.isTyping = false) (h2 : m.all isWS = true) :
    sendStep st store m ctrl now = (st, store) := by
  have hm : trimJS m = [] := trimJS_eq_nil_of_all_ws m h2
  have hsend : handleSendMessage st m ctrl now = st := by
    simp only [handleSendMessage, h1, hm]
    simp
  simp [sendStep, hsend]

theorem send_blank_is_noop_witness :
    let st : ChatState :=
      { messages := [⟨1, s "user", s "hi"⟩], inputValue := [], isTyping := false,
        currentAbortController := none, aborted := [], issuedRequests := [] }
    let store : Storage := { data := [], rejects := fun _ _ => false }
    sendStep st store (s "   ") 2 3 = (st, store) := by
  exact send_blank_is_noop _ _ _ 2 3 rfl (by decide)

/-- Helper: sanitization does not touch a message whose content does not
mention the PNG marker. -/
theorem sanitizeMsg_eq_self (m : ChatMsg) (h : includesSub m.content pngSig = false) :
    sanitizeMsg m = m := by
  simp [sanitizeMsg, sanitizeContent, h]

/-- C4: the persisted active-session list is the sliding window of the most
recent 10 messages, oldest first; with no inline image payloads the persisted
list is exactly the last 10 messages. -/
theorem bounded_history (msgs : List ChatMsg)
    (h1 : 10 ≤ msgs.length)
    (h2 : ∀ m ∈ msgs, includesSub m.content pngSig = false) :
    persistMessages msgs = msgs.drop (msgs.length - 10) ∧
    (persistMessages msgs).length = 10 := by
  have hmap : msgs.map sanitizeMsg = msgs := by
    have := List.map_congr_left (f := sanitizeMsg) (g := id)
      (fun m hm => sanitizeMsg_eq_self m (h2 m hm))
    simpa using this
  constructor
  · simp [persistMessages, hmap]
  · simp [persistMessages, hmap]
    omega

/-- Detector for an occurrence of the PNG regex pattern at the head of a
string: the literal marker followed by at least one non-quote character. -/
def pngPayloadAt (t : Chars) : Bool :=
  pngMarker.isPrefixOf t &&
    (match t.drop pngMarker.length with
     | [] => false
     | ch :: _ => ch != '"')

/-- A string contains a PNG image payload somewhere. -/
def hasPngPayload (l : Chars) : Bool := l.tails.any pngPayloadAt

def pngMarkerTail : Chars := s "ata:image/png;base64,"

theorem pngMarker_eq : pngMarker = 'd' :: pngMarkerTail := by decide

theorem pngReplaceF_nil (fuel : Nat) : pngReplaceF fuel [] = [] := by
  cases fuel <;> simp [pngReplaceF]

theorem hasPngPayload_cons (c : Char) (l : Chars) :
    hasPngPayload (c :: l) = (pngPayloadAt (c :: l) || hasPngPayload l) := by
  simp [hasPngPayload]

theorem pngPayloadAt_head {t : Chars} (h : pngPayloadAt t = true) : ∃ t', t = 'd' :: t' := by
  have hp : pngMarker.isPrefixOf t = true := by
    cases hb : pngMarker.isPrefixOf t with
    | true => rfl
    | false => unfold pngPayloadAt at h; rw [hb] at h; simp at h
  obtain ⟨u, hu⟩ := List.isPrefixOf_iff_prefix.mp hp
  rw [← hu, pngMarker_eq, List.cons_append]
  exact ⟨pngMarkerTail ++ u, rfl⟩

theorem hasPngPayload_append_left (A B : Chars) (h : ∀ a ∈ A, a ≠ 'd') :
    hasPngPayload (A ++ B) = hasPngPayload B := by
  induction A with
  | nil => rfl
  | cons a A ih =>
    rw [List.cons_append, hasPngPayload_cons]
    have hfalse : pngPayloadAt (a :: (A ++ B)) = false := by
      cases hpa : pngPayloadAt (a :: (A ++ B)) with
      | false => rfl
      | true =>
        obtain ⟨t', ht⟩ := pngPayloadAt_head hpa
        injection ht with h1 _
        exact (h a (List.mem_cons_self a A) h1).elim
    rw [hfalse, Bool.false_or, ih (fun x hx => h x (List.mem_cons_of_mem a hx))]

theorem pngMarker_isPrefixOf_false {a : Char} (X : Chars) (h : a ≠ 'd') :
    pngMarker.isPrefixOf (a :: X) = false := by
  cases hb : pngMarker.isPrefixOf (a :: X) with
  | false => rfl
  | true =>
    obtain ⟨u, hu⟩ := List.isPrefixOf_iff_prefix.mp hb
    rw [pngMarker_eq, List.cons_append] at hu
    injection hu with h1 _
    exact (h h1.symm).elim

/-- A block of characters free of the letter d passes through the replace
pass untouched, with fuel discounted by its length. -/
theorem pngReplaceF_append_left (A : Chars) : ∀ (fuel : Nat) (B : Chars),
    (∀ a ∈ A, a ≠ 'd') → A.length + B.length ≤ fuel →
    pngReplaceF fuel (A ++ B) = A ++ pngReplaceF (fuel - A.length) B := by
  induction A with
  | nil => intro fuel B _ _; simp
  | cons a A ih =>
    intro fuel B h hlen
    cases fuel with
    | zero => simp at hlen
    | succ f =>
      have hna : pngMarker.isPrefixOf (a :: (A ++ B)) = false :=
        pngMarker_isPrefixOf_false _ (h a (List.mem_cons_self a A))
      rw [List.cons_append]
      show pngReplaceF (f + 1) (a :: (A ++ B)) = _
      rw [pngReplaceF, hna]
      simp only [Bool.false_eq_true, if_false]
      rw [ih f B (fun x hx => h x (List.mem_cons_of_mem a hx)) (by simpa using Nat.le_of_succ_le_succ (by simpa [Nat.add_right_comm] using hlen))]
      simp [Nat.succ_sub_succ]

theorem pngReplaceF_succ_cons (f : Nat) (c : Char) (rest : Chars) :
    pngReplaceF (f + 1) (c :: rest) =
      if pngMarker.isPrefixOf (c :: rest) then
        if ((c :: rest).drop pngMarker.length).takeWhile notQuote = [] then
          c :: pngReplaceF f rest
        else imagePlaceholder ++ pngReplaceF f (((c :: rest).drop pngMarker.length).dropWhile notQuote)
      else c :: pngReplaceF f rest := by
  rw [pngReplaceF]

theorem pngPayloadAt_hasMarker {t : Chars} (h : pngPayloadAt t = true) :
    pngMarker.isPrefixOf t = true := by
  cases hb : pngMarker.isPrefixOf t with
  | true => rfl
  | false => unfold pngPayloadAt at h; rw [hb] at h; simp at h

theorem pngMarkerTail_len : pngMarkerTail.length = 21 := by decide

theorem length_dropWhile_le_self (p : Char → Bool) (l : Chars) :
    (l.dropWhile p).length ≤ l.length := by
  induction l with
  | nil => simp
  | cons a l ih =>
    rw [List.dropWhile_cons]
    by_cases h : p a = true
    · rw [if_pos h]; exact Nat.le_succ_of_le ih
    · rw [if_neg h]

/-- Reading a bracket-free prefix off the output of the replace pass gives the
same prefix of the input (the pass only introduces bracketed placeholders). -/
theorem prefix_reflect : ∀ (fuel : Nat) (l t : Chars), l.length ≤ fuel →
    t.isPrefixOf (pngReplaceF fuel l) = true → '[' ∉ t → t.isPrefixOf l = true := by
  intro fuel
  induction fuel with
  | zero => intro l t _ ht _; exact ht
  | succ f ih =>
    intro l t hl ht hbr
    cases l with
    | nil => rwa [pngReplaceF_nil] at ht
    | cons c rest =>
      have hlr : rest.length ≤ f := by
        simp only [List.length_cons] at hl; omega
      have step : ∀ u : Chars, u.isPrefixOf (c :: pngReplaceF f rest) = true → '[' ∉ u →
          u.isPrefixOf (c :: rest) = true := by
        intro u hu hbru
        cases u with
        | nil => rfl
        | cons x u' =>
          simp only [List.isPrefixOf, Bool.and_eq_true] at hu ⊢
          exact ⟨hu.1, ih rest u' hlr hu.2 (fun hm => hbru (List.mem_cons_of_mem x hm))⟩
      by_cases hp : pngMarker.isPrefixOf (c :: rest) = true
      · by_cases hpay : ((c :: rest).drop pngMarker.length).takeWhile notQuote = []
        · rw [pngReplaceF_succ_cons, if_pos hp, if_pos hpay] at ht
          exact step t ht hbr
        · rw [pngReplaceF_succ_cons, if_pos hp, if_neg hpay] at ht
          cases t with
          | nil => rfl
          | cons x t' =>
            have himg : imagePlaceholder = '[' :: s "IMAGE_REMOVED_FOR_STORAGE]" := by decide
            rw [himg, List.cons_append] at ht
            simp only [List.isPrefixOf, Bool.and_eq_true, beq_iff_eq] at ht
            exact (hbr (ht.1 ▸ List.mem_cons_self x t')).elim
      · rw [pngReplaceF_succ_cons, if_neg hp] at ht
        exact step t ht hbr

/-- Correctness of the PNG replace pass: its output contains no occurrence of
the PNG payload pattern. -/
theorem hasPngPayload_pngReplaceF : ∀ (fuel : Nat) (l : Chars), l.length ≤ fuel →
    hasPngPayload (pngReplaceF fuel l) = false := by
  intro fuel
  induction fuel with
  | zero =>
    intro l hl
    have hnil : l = [] := List.length_eq_zero.mp (Nat.le_zero.mp hl)
    subst hnil; decide
  | succ f ih =>
    intro l hl
    cases l with
    | nil => rw [pngReplaceF_nil]; decide
    | cons c rest =>
      have hlr : rest.length ≤ f := by
        simp only [List.length_cons] at hl; omega
      by_cases hp : pngMarker.isPrefixOf (c :: rest) = true
      · obtain ⟨u, hu⟩ := List.isPrefixOf_iff_prefix.mp hp
        rw [pngMarker_eq, List.cons_append] at hu
        injection hu with hc hrest
        subst hc
        subst hrest
        have hlen21 : 21 + u.length ≤ f := by
          rw [List.length_append, pngMarkerTail_len] at hlr; omega
        have hshape : ('d' :: (pngMarkerTail ++ u)) = pngMarker ++ u := by
          rw [pngMarker_eq, List.cons_append]
        have happ : pngReplaceF f (pngMarkerTail ++ u) =
            pngMarkerTail ++ pngReplaceF (f - 21) u := by
          rw [pngReplaceF_append_left pngMarkerTail f u (by decide) (by rw [pngMarkerTail_len]; omega),
            pngMarkerTail_len]
        by_cases hpay : (('d' :: (pngMarkerTail ++ u)).drop pngMarker.length).takeWhile notQuote = []
        · rw [pngReplaceF_succ_cons, if_pos hp, if_pos hpay, hasPngPayload_cons, happ]
          rw [hshape, List.drop_left] at hpay
          have h2 : hasPngPayload (pngMarkerTail ++ pngReplaceF (f - 21) u) = false := by
            rw [← happ]; exact ih _ hlr
          rw [h2]
          have h1 : pngPayloadAt ('d' :: (pngMarkerTail ++ pngReplaceF (f - 21) u)) = false := by
            unfold pngPayloadAt
            rw [show ('d' :: (pngMarkerTail ++ pngReplaceF (f - 21) u)) =
              pngMarker ++ pngReplaceF (f - 21) u from by rw [pngMarker_eq, List.cons_append],
              List.drop_left]
            cases u with
            | nil => rw [pngReplaceF_nil]; simp
            | cons v u' =>
              have hv : v = '"' := by
                by_cases hnq : notQuote v = true
                · rw [List.takeWhile_cons, if_pos hnq] at hpay; simp at hpay
                · simpa [notQuote] using hnq
              subst hv
              obtain ⟨k, hk⟩ : ∃ k, f - 21 = k + 1 :=
                ⟨f - 22, by simp only [List.length_cons] at hlen21; omega⟩
              rw [hk, pngReplaceF_succ_cons,
                if_neg (by rw [pngMarker_isPrefixOf_false _ (by decide)]; simp)]
              simp
          rw [h1]
          rfl
        · rw [pngReplaceF_succ_cons, if_pos hp, if_neg hpay,
            hasPngPayload_append_left imagePlaceholder _ (by decide)]
          refine ih _ ?_
          calc ((('d' :: (pngMarkerTail ++ u)).drop pngMarker.length).dropWhile notQuote).length
              ≤ (('d' :: (pngMarkerTail ++ u)).drop pngMarker.length).length :=
                length_dropWhile_le_self _ _
            _ = u.length := by rw [hshape, List.drop_left]
            _ ≤ f := by omega
      · rw [pngReplaceF_succ_cons, if_neg hp, hasPngPayload_cons, ih _ hlr]
        have h1 : pngPayloadAt (c :: pngReplaceF f rest) = false := by
          cases hpa : pngPayloadAt (c :: pngReplaceF f rest) with
          | false => rfl
          | true =>
            obtain ⟨w, hw⟩ := List.isPrefixOf_iff_prefix.mp (pngPayloadAt_hasMarker hpa)
            rw [pngMarker_eq, List.cons_append] at hw
            injection hw with hc hRf
            have hpt : pngMarkerTail.isPrefixOf (pngReplaceF f rest) = true :=
              List.isPrefixOf_iff_prefix.mpr ⟨w, hRf⟩
            obtain ⟨w2, hw2⟩ :=
              List.isPrefixOf_iff_prefix.mp (prefix_reflect f rest pngMarkerTail hlr hpt (by decide))
            exact absurd (List.isPrefixOf_iff_prefix.mpr
              ⟨w2, by rw [pngMarker_eq, List.cons_append, hw2, hc]⟩) hp
        rw [h1]
        rfl

theorem includes_of_hasPngPayload {l : Chars} (h : hasPngPayload l = true) :
    includesSub l pngSig = true := by
  unfold hasPngPayload at h
  rw [List.any_eq_true] at h
  obtain ⟨t, htails, hat⟩ := h
  unfold includesSub
  rw [List.any_eq_true]
  refine ⟨t, htails, List.isPrefixOf_iff_prefix.mpr ?_⟩
  exact (List.isPrefixOf_iff_prefix.mp (by decide : pngSig.isPrefixOf pngMarker = true)).trans
    (List.isPrefixOf_iff_prefix.mp (pngPayloadAt_hasMarker hat))

theorem hasPngPayload_sanitizeContent (c : Chars) : hasPngPayload (sanitizeContent c) = false := by
  unfold sanitizeContent
  by_cases h : includesSub c pngSig = true
  · rw [if_pos h]
    exact hasPngPayload_pngReplaceF c.length c le_rfl
  · rw [if_neg h]
    cases hc : hasPngPayload c with
    | false => rfl
    | true => exact absurd (includes_of_hasPngPayload hc) h

/-- C2 counterexample: the sanitization pass only targets PNG payloads, so a
JPEG Base64 payload is written to durable storage verbatim. -/
theorem jpeg_payload_survives_persistence :
    persistMessages [⟨1, s "assistant", s "data:image/jpeg;base64,AAAA"⟩] =
      [⟨1, s "assistant", s "data:image/jpeg;base64,AAAA"⟩] ∧
    includesSub (s "data:image/jpeg;base64,AAAA") (s "data:image/jpeg;base64,") = true := by
  decide

/-- C2 amended: every message list handed to the durable-storage write has
been through the sanitization pass, after which no message content contains a
PNG Base64 image payload (marker plus nonempty payload); payloads of other
image formats are not touched by this pass. -/
theorem persisted_message_has_no_png_payload (msgs : List ChatMsg) :
    ∀ m ∈ persistMessages msgs, hasPngPayload m.content = false := by
  intro m hm
  unfold persistMessages at hm
  have hm2 : m ∈ msgs.map sanitizeMsg := (List.drop_sublist _ _).subset hm
  obtain ⟨m0, _, rfl⟩ := List.mem_map.mp hm2
  exact hasPngPayload_sanitizeContent m0.content

theorem persisted_message_has_no_png_payload_witness :
    hasPngPayload (ChatMsg.mk 1 (s "assistant") (s "x [IMAGE_REMOVED_FOR_STORAGE]")).content
      = false := by
  exact persisted_message_has_no_png_payload
    [⟨1, s "assistant", s "x data:image/png;base64,iVBORw0K"⟩] _ (by decide)

theorem bounded_history_witness :
    persistMessages ((List.range 15).map (fun i => ⟨i, s "user", s "msg"⟩)) =
      ((List.range 15).map (fun i => ⟨i, s "user", s "msg"⟩)).drop 5 ∧
    (persistMessages ((List.range 15).map (fun i => ⟨i, s "user", s "msg"⟩))).length = 10 := by
  have h := bounded_history ((List.range 15).map (fun i => ⟨i, s "user", s "msg"⟩))
    (by decide) (by decide)
  simpa using h

/-- Character class [^;] of the sidebar replace regex. -/
def notSemi (c : Char) : Bool := c != ';'

def imgPrefix : Chars := s "data:image/"

def b64Mid : Chars := s ";base64,"

def imageRemoved : Chars := s "[IMAGE_REMOVED]"

/-- Global replace of the regex data:image\/[^;]+;base64,[^"]+ with
[IMAGE_REMOVED] (the sidebar clean pass, TypingIndicator.tsx line 143),
fuel-indexed like the PNG pass. -/
def allImgReplaceF : Nat → Chars → Chars
  | 0, l => l
  | _ + 1, [] => []
  | fuel + 1, c :: rest =>
      if imgPrefix.isPrefixOf (c :: rest) then
        let afterPrefix := (c :: rest).drop imgPrefix.length
        let fmt := afterPrefix.takeWhile notSemi
        let rest2 := afterPrefix.dropWhile notSemi
        if fmt ≠ [] ∧ b64Mid.isPrefixOf rest2 then
          let afterMid := rest2.drop b64Mid.length
          let payload := afterMid.takeWhile notQuote
          if payload ≠ [] then
            imageRemoved ++ allImgReplaceF fuel (afterMid.dropWhile notQuote)
          else c :: allImgReplaceF fuel rest
        else c :: allImgReplaceF fuel rest
      else c :: allImgReplaceF fuel rest

def allImgReplace (l : Chars) : Chars := allImgReplaceF l.length l

/-- Sidebar title derivation: substring(0, 30) plus an ellipsis when longer. -/
def deriveTitle (content : Chars) : Chars :=
  content.take 30 ++ (if 30 < content.length then s "..." else [])

/-- Sidebar clean pass (TypingIndicator.tsx lines 140-147): only messages
whose type tag is the string "ai" (and with truthy content) are cleaned. -/
def cleanMsg (m : ChatMsg) : ChatMsg :=
  if m.type = s "ai" ∧ m.content ≠ [] then { m with content := allImgReplace m.content }
  else m

/-- The session list produced for persistence: replace the existing entry for
this session id, or prepend a new entry keeping at most 4 older sessions. -/
def updatedHistory (prev : List SessionH) (sessionId title : Chars) (clean : List ChatMsg) :
    List SessionH :=
  match prev.findIdx? (fun chat => chat.id == sessionId) with
  | some i => prev.set i ⟨sessionId, title, clean⟩
  | none => ⟨sessionId, title, clean⟩ :: prev.take 4

/-- Core of ClaudeSidebar.checkForNewMessages (TypingIndicator.tsx lines
122-181): read the active message list, derive the title from the first user
message, clean the messages, update the session list, and write it; if the
write is rejected retry once with the current session only; if the retry is
also rejected the resulting exception is absorbed by the enclosing catch and
neither storage nor the in-memory session list changes. -/
def checkForNewMessages (st : Storage) (prev : List SessionH) (sessionId : Chars) :
    Storage × List SessionH :=
  match getItem st keyHist with
  | some (StoredVal.msgs ms) =>
    if ms ≠ [] then
      match ms.find? (fun m => m.type == s "user") with
      | some firstUser =>
        let title := deriveTitle firstUser.content
        let clean := ms.map cleanMsg
        let newHistory := updatedHistory prev sessionId title clean
        match setItem st keySessions (StoredVal.sessions newHistory) with
        | (st1, true) => (st1, newHistory)
        | (st1, false) =>
          let currentOnly : List SessionH := [⟨sessionId, title, clean⟩]
          match setItem st1 keySessions (StoredVal.sessions currentOnly) with
          | (st2, true) => (st2, currentOnly)
          | (st2, false) => (st2, prev)
      | none => (st, prev)
    else (st, prev)
  | _ => (st, prev)

/-- C3 counterexample: with a storage layer that rejects every write, a poll
of the sidebar persister leaves the previously persisted session index in
place — persisted history is not cleared after the failed retry, contrary to
the stated degrade-then-clear policy. -/
theorem quota_double_failure_keeps_history :
    getItem
      (checkForNewMessages
        { data := [(keySessions, StoredVal.sessions [⟨s "old", s "t", []⟩]),
                   (keyHist, StoredVal.msgs [⟨1, s "user", s "hello"⟩])],
          rejects := fun _ _ => true }
        [⟨s "old", s "t", []⟩] (s "session-1")).1 keySessions =
      some (StoredVal.sessions [⟨s "old", s "t", []⟩]) := by
  decide

/-- C3 amended: on a rejected message-list write the store removes that key
outright, with no reduced-payload retry; on a rejected session-index write it
retries exactly once with the current session only, and if the retry is also
rejected it leaves both the persisted index and the in-memory list exactly as
they were — it never clears persisted history. -/
theorem quota_degrade_policy (st : Storage) (msgs ms : List ChatMsg) (firstUser : ChatMsg)
    (prev : List SessionH) (sid : Chars)
    (ha : st.rejects keyHist (StoredVal.msgs (persistMessages msgs)) = true)
    (h1 : getItem st keyHist = some (StoredVal.msgs ms))
    (h2 : ms ≠ [])
    (h3 : ms.find? (fun m => m.type == s "user") = some firstUser)
    (h4 : st.rejects keySessions
      (StoredVal.sessions
        (updatedHistory prev sid (deriveTitle firstUser.content) (ms.map cleanMsg))) = true) :
    saveChatHistory st msgs = removeItem st keyHist ∧
    checkForNewMessages st prev sid =
      (match setItem st keySessions
          (StoredVal.sessions [⟨sid, deriveTitle firstUser.content, ms.map cleanMsg⟩]) with
       | (st2, true) => (st2, [⟨sid, deriveTitle firstUser.content, ms.map cleanMsg⟩])
       | (st2, false) => (st2, prev)) := by
  constructor
  · unfold saveChatHistory setItem
    rw [ha]
    simp
  · unfold checkForNewMessages
    rw [h1]
    simp only [if_pos h2, h3]
    unfold setItem
    rw [h4]
    simp

theorem quota_degrade_policy_witness :
    let st : Storage :=
      { data := [(keyHist, StoredVal.msgs [⟨1, s "user", s "hi"⟩])], rejects := fun _ _ => true }
    let fu : ChatMsg := ⟨1, s "user", s "hi"⟩
    saveChatHistory st [] = removeItem st keyHist ∧
    checkForNewMessages st [] (s "session-1") =
      (match setItem st keySessions
          (StoredVal.sessions [⟨s "session-1", deriveTitle fu.content, [fu].map cleanMsg⟩]) with
       | (st2, true) => (st2, [⟨s "session-1", deriveTitle fu.content, [fu].map cleanMsg⟩])
       | (st2, false) => (st2, [])) := by
  exact quota_degrade_policy _ [] [⟨1, s "user", s "hi"⟩] ⟨1, s "user", s "hi"⟩ [] (s "session-1")
    rfl (by decide) (by decide) (by decide) rfl

/-- One message of the `useChatHistory` store (types/chat.ts, as used by the
hook: a content string and an isUser flag). -/
structure MsgH where
  content : Chars
  isUser : Bool
deriving DecidableEq

/-- One session of the `useChatHistory` store. -/
structure ChatH where
  id : Chars
  title : Chars
  messages : List MsgH
deriving DecidableEq

def newChatTitle : Chars := s "New Chat"

/-- useChatHistory.addMessageToChat (useChatHistory.ts lines 88-110): append
the message; while the title is still the placeholder "New Chat" and the
message is a user message, recompute the title from that message, truncated
to 50 characters with an ellipsis. -/
def addMessageToChat (chats : List ChatH) (chatId : Chars) (message : MsgH) : List ChatH :=
  chats.map fun chat =>
    if chat.id = chatId then
      let title :=
        if chat.title = newChatTitle ∧ message.isUser then
          if 50 < message.content.length then message.content.take 50 ++ s "..."
          else message.content
        else chat.title
      { chat with title := title, messages := chat.messages ++ [message] }
    else chat

/-- useChatHistory.renameChat (useChatHistory.ts lines 71-86). -/
def renameChat (chats : List ChatH) (chatId : Chars) (newTitle : Chars) : List ChatH :=
  if trimJS newTitle = [] then chats
  else chats.map fun chat =>
    if chat.id = chatId then { chat with title := trimJS newTitle } else chat

/-- C8 counterexample: a first user message whose content is exactly the
placeholder "New Chat" leaves the session eligible for recomputation, so a
second user message append — not a rename — changes the title again. -/
theorem title_recomputed_twice :
    addMessageToChat [⟨s "c1", s "New Chat", []⟩] (s "c1") ⟨s "New Chat", true⟩ =
      [⟨s "c1", s "New Chat", [⟨s "New Chat", true⟩]⟩] ∧
    addMessageToChat [⟨s "c1", s "New Chat", [⟨s "New Chat", true⟩]⟩] (s "c1")
        ⟨s "hello", true⟩ =
      [⟨s "c1", s "hello", [⟨s "New Chat", true⟩, ⟨s "hello", true⟩]⟩] := by
  decide

/-- C8 amended: an append recomputes the title exactly when the current title
is the placeholder "New Chat" and the appended message is a user message (the
title then being that message truncated to 50 characters); any other append
leaves the title unchanged. Hence the title is recomputed exactly once
provided the derived title differs from the placeholder. -/
theorem title_update_rule (chat : ChatH) (chatId : Chars) (message : MsgH)
    (hid : chat.id = chatId) :
    (chat.title ≠ newChatTitle ∨ message.isUser = false →
      (addMessageToChat [chat] chatId message).map ChatH.title = [chat.title]) ∧
    (chat.title = newChatTitle → message.isUser = true →
      (addMessageToChat [chat] chatId message).map ChatH.title =
        [if 50 < message.content.length then message.content.take 50 ++ s "..."
         else message.content]) := by
  constructor
  · intro h
    have hcond : ¬(chat.title = newChatTitle ∧ message.isUser = true) := by
      rcases h with h | h
      · exact fun hc => h hc.1
      · exact fun hc => by rw [h] at hc; exact Bool.false_ne_true hc.2
    simp [addMessageToChat, hid, hcond]
  · intro h1 h2
    simp [addMessageToChat, hid, h1, h2]

theorem title_update_rule_witness :
    ((addMessageToChat [⟨s "c1", s "data", []⟩] (s "c1") ⟨s "question", true⟩).map ChatH.title
        = [s "data"] ∧ True) ∧
    ((addMessageToChat [⟨s "c2", s "New Chat", []⟩] (s "c2") ⟨s "hello", true⟩).map ChatH.title
        = [if 50 < (s "hello").length then (s "hello").take 50 ++ s "..." else s "hello"] ∧
      True) := by
  constructor
  · exact ⟨(title_update_rule ⟨s "c1", s "data", []⟩ (s "c1") ⟨s "question", true⟩ rfl).1
      (Or.inl (by decide)), trivial⟩
  · exact ⟨(title_update_rule ⟨s "c2", s "New Chat", []⟩ (s "c2") ⟨s "hello", true⟩ rfl).2
      rfl rfl, trivial⟩

def mib : Nat := 1024 * 1024

/-- FILE_SIZE_LIMITS of useFileUpload (useChatHistory.ts lines 161-181),
keyed by MIME type, in bytes. -/
def fileSizeLimits : List (Chars × Nat) :=
  [ (s "text/csv", 100 * mib),
    (s "application/json", 50 * mib),
    (s "text/plain", 10 * mib),
    (s "text/markdown", 10 * mib),
    (s "application/vnd.ms-excel", 200 * mib),
    (s "application/vnd.openxmlformats-officedocument.spreadsheetml.sheet", 200 * mib),
    (s "application/pdf", 50 * mib),
    (s "application/vnd.openxmlformats-officedocument.wordprocessingml.document", 50 * mib),
    (s "image/png", 50 * mib),
    (s "image/jpeg", 50 * mib),
    (s "image/svg+xml", 10 * mib),
    (s "default", 50 * mib) ]

def defaultSizeLimit : Nat := 50 * mib

/-- One SUPPORTED_FORMATS entry: MIME-keyed entries carry an extension hint,
extension-keyed entries do not; both carry a category name and priority. -/
structure FormatEntry where
  ext : Option Chars
  name : Chars
  priority : Nat
deriving DecidableEq

def structuredData : List (Chars × FormatEntry) :=
  [ (s "text/csv", ⟨some (s ".csv"), s "CSV Files", 1⟩),
    (s "application/vnd.ms-excel", ⟨some (s ".xls"), s "Excel Files (Legacy)", 1⟩),
    (s "application/vnd.openxmlformats-officedocument.spreadsheetml.sheet",
      ⟨some (s ".xlsx"), s "Excel Files", 1⟩),
    (s "application/json", ⟨some (s ".json"), s "JSON Data", 1⟩),
    (s "text/plain", ⟨some (s ".txt"), s "Text Files", 1⟩) ]

def documents : List (Chars × FormatEntry) :=
  [ (s "application/pdf", ⟨some (s ".pdf"), s "PDF Documents", 1⟩),
    (s "application/vnd.openxmlformats-officedocument.wordprocessingml.document",
      ⟨some (s ".docx"), s "Word Documents", 2⟩),
    (s "text/html", ⟨some (s ".html"), s "HTML Documents", 2⟩),
    (s "text/markdown", ⟨some (s ".md"), s "Markdown Files", 2⟩) ]

def images : List (Chars × FormatEntry) :=
  [ (s "image/png", ⟨some (s ".png"), s "PNG Images (with OCR)", 2⟩),
    (s "image/jpeg", ⟨some (s ".jpg"), s "JPEG Images (with OCR)", 2⟩),
    (s "image/tiff", ⟨some (s ".tiff"), s "TIFF Images (with OCR)", 2⟩),
    (s "image/bmp", ⟨some (s ".bmp"), s "Bitmap Images (with OCR)", 2⟩),
    (s "image/webp", ⟨some (s ".webp"), s "WebP Images (with OCR)", 2⟩),
    (s "image/svg+xml", ⟨some (s ".svg"), s "SVG Images", 2⟩) ]

def byExtension : List (Chars × FormatEntry) :=
  [ (s ".jsonl", ⟨none, s "JSON Lines", 1⟩),
    (s ".parquet", ⟨none, s "Parquet Files", 1⟩),
    (s ".ipynb", ⟨none, s "Jupyter Notebooks", 1⟩),
    (s ".sql", ⟨none, s "SQL Scripts", 1⟩),
    (s ".xml", ⟨none, s "XML Files", 2⟩),
    (s ".yaml", ⟨none, s "YAML Files", 2⟩),
    (s ".yml", ⟨none, s "YAML Files", 2⟩),
    (s ".sqlite", ⟨none, s "SQLite Database", 2⟩),
    (s ".db", ⟨none, s "Database Files", 2⟩),
    (s ".h5", ⟨none, s "HDF5 Files", 2⟩),
    (s ".hdf5", ⟨none, s "HDF5 Files", 2⟩),
    (s ".sav", ⟨none, s "SPSS Files", 3⟩),
    (s ".dta", ⟨none, s "Stata Files", 3⟩),
    (s ".sas7bdat", ⟨none, s "SAS Files", 3⟩),
    (s ".rda", ⟨none, s "R Data Files", 3⟩),
    (s ".rds", ⟨none, s "R Serialized Data", 3⟩),
    (s ".avro", ⟨none, s "Apache Avro", 3⟩),
    (s ".orc", ⟨none, s "Apache ORC", 3⟩),
    (s ".feather", ⟨none, s "Apache Arrow", 3⟩),
    (s ".pkl", ⟨none, s "Pickle Files", 3⟩),
    (s ".pickle", ⟨none, s "Pickle Files", 3⟩),
    (s ".joblib", ⟨none, s "Joblib Models", 3⟩),
    (s ".onnx", ⟨none, s "ONNX Models", 3⟩),
    (s ".tiff", ⟨none, s "TIFF Images (with OCR)", 2⟩),
    (s ".tif", ⟨none, s "TIFF Images (with OCR)", 2⟩),
    (s ".bmp", ⟨none, s "Bitmap Images (with OCR)", 2⟩),
    (s ".webp", ⟨none, s "WebP Images (with OCR)", 2⟩),
    (s ".heic", ⟨none, s "HEIC Images (iPhone photos with OCR)", 2⟩),
    (s ".wav", ⟨none, s "Audio Files", 3⟩),
    (s ".mp3", ⟨none, s "Audio Files", 3⟩),
    (s ".mp4", ⟨none, s "Video Files", 3⟩) ]

/-- The extension of a filename as computed by the hook:
a dot, plus the segment after the last dot (the whole name when it has no
dot), lowercased. -/
def extOf (name : Chars) : Chars :=
  '.' :: ((name.reverse.takeWhile (fun c => c != '.')).reverse.map Char.toLower)

def lookupA (reg : List (Chars × FormatEntry)) (k : Chars) : Option FormatEntry :=
  (reg.find? (fun p => p.1 == k)).map (·.2)

/-- MIME resolution walks the three MIME-keyed categories in order. -/
def lookupMime (mime : Chars) : Option FormatEntry :=
  match lookupA structuredData mime with
  | some e => some e
  | none =>
    match lookupA documents mime with
    | some e => some e
    | none => lookupA images mime

/-- getFileInfo (useChatHistory.ts lines 272-289): MIME type first, filename
extension only when no MIME-keyed entry matches. -/
def getFileInfo (name mime : Chars) : Option FormatEntry :=
  match lookupMime mime with
  | some e => some e
  | none => lookupA byExtension (extOf name)

/-- The ALLOWED_MIME_TYPES list derived from the registry. -/
def allowedMimeTypes : List Chars := (structuredData ++ documents ++ images).map Prod.fst

/-- The ALLOWED_EXTENSIONS list derived from the registry. -/
def allowedExtensions : List Chars := byExtension.map Prod.fst

/-- Size ceiling for a MIME type: the FILE_SIZE_LIMITS entry, or the default. -/
def sizeLimitFor (mime : Chars) : Nat :=
  ((fileSizeLimits.find? (fun p => p.1 == mime)).map (·.2)).getD defaultSizeLimit

/-- Structured form of the two validation failures. The unsupported-format
message is one fixed string enumerating category examples; the too-large
message interpolates the actual size, the allowed size and the resolved
category name (or the uppercased extension when no entry resolved). -/
inductive ValidationError where
  | unsupportedFormat
  | fileTooLarge (sizeBytes limitBytes : Nat) (label : Chars)
deriving DecidableEq

/-- validateFile (useChatHistory.ts lines 291-328). -/
def validateFile (name mime : Chars) (size : Nat) : Option ValidationError :=
  let extension := extOf name
  let fileInfo := getFileInfo name mime
  if fileInfo = none ∧ allowedMimeTypes.contains mime = false ∧
      allowedExtensions.contains extension = false then
    some ValidationError.unsupportedFormat
  else
    let sizeLimit := sizeLimitFor mime
    if sizeLimit < size then
      some (ValidationError.fileTooLarge size sizeLimit
        (match fileInfo with
         | some e => e.name
         | none => extension.map Char.toUpper))
    else none

/-- Boundary check for one registry entry: one byte under the ceiling passes,
one byte over fails with the entry's category name and both sizes. -/
def boundaryOk (mime name : Chars) (entry : FormatEntry) : Bool :=
  let lim := sizeLimitFor mime
  decide (validateFile name mime (lim - 1) = none) &&
  decide (validateFile name mime (lim + 1) =
    some (ValidationError.fileTooLarge (lim + 1) lim entry.name))

/-- C6: for every MIME-keyed registry entry (with a filename carrying its
extension hint) and every extension-keyed entry (with an empty MIME type),
one byte under the applicable ceiling validates and one byte over fails with
FileTooLarge carrying the actual size, the ceiling and that entry's category
name; in particular a 150MB text/csv file fails against the 100MB csv
ceiling. -/
theorem classifier_size_boundaries :
    ((structuredData ++ documents ++ images).all fun p =>
      boundaryOk p.1 (s "f" ++ p.2.ext.getD []) p.2) = true ∧
    (byExtension.all fun p => boundaryOk [] (s "f" ++ p.1) p.2) = true ∧
    validateFile (s "data.csv") (s "text/csv") (150 * mib) =
      some (ValidationError.fileTooLarge (150 * mib) (100 * mib) (s "CSV Files")) := by
  refine ⟨by decide, by decide, by decide⟩

theorem find_none_iff_contains_false (reg : List (Chars × FormatEntry)) (k : Chars) :
    (reg.find? (fun p => p.1 == k) = none) ↔ ((reg.map Prod.fst).contains k = false) := by
  induction reg with
  | nil => exact iff_of_true rfl rfl
  | cons p reg ih =>
    rw [List.find?_cons, List.map_cons, List.contains_cons]
    cases hb : (p.1 == k) with
    | true =>
      have hkb : (k == p.1) = true := by
        rw [beq_iff_eq] at hb ⊢
        exact hb.symm
      rw [hkb, Bool.true_or]
      exact iff_of_false (by intro hc; cases hc) (by intro hc; cases hc)
    | false =>
      have hkb : (k == p.1) = false := by
        rw [beq_eq_false_iff_ne] at hb ⊢
        exact fun hh => hb hh.symm
      rw [hkb, Bool.false_or]
      exact ih

theorem lookupA_eq_none_iff (reg : List (Chars × FormatEntry)) (k : Chars) :
    lookupA reg k = none ↔ ((reg.map Prod.fst).contains k = false) := by
  unfold lookupA
  rw [Option.map_eq_none']
  exact find_none_iff_contains_false reg k

theorem contains_false_iff (l : List Chars) (k : Chars) : l.contains k = false ↔ k ∉ l := by
  rw [← Bool.not_eq_true]
  exact not_congr List.elem_iff

theorem lookupMime_eq_none_iff (mime : Chars) :
    lookupMime mime = none ↔ allowedMimeTypes.contains mime = false := by
  have h3 : lookupMime mime = none ↔
      (lookupA structuredData mime = none ∧ lookupA documents mime = none ∧
       lookupA images mime = none) := by
    unfold lookupMime
    cases h1 : lookupA structuredData mime <;>
      cases h2 : lookupA documents mime <;> simp
  rw [h3, lookupA_eq_none_iff, lookupA_eq_none_iff, lookupA_eq_none_iff,
    contains_false_iff, contains_false_iff, contains_false_iff]
  unfold allowedMimeTypes
  rw [contains_false_iff]
  simp only [List.map_append, List.mem_append]
  tauto

/-- C9: classification fails with UnsupportedFormat exactly when neither the
MIME type nor the filename extension resolves a registry entry, and MIME
resolution always takes precedence over extension resolution. -/
theorem unsupported_iff_no_resolution (name mime : Chars) (size : Nat) :
    (validateFile name mime size = some ValidationError.unsupportedFormat ↔
      (lookupMime mime = none ∧ lookupA byExtension (extOf name) = none)) ∧
    (∀ e, lookupMime mime = some e → getFileInfo name mime = some e) := by
  constructor
  · constructor
    · intro h
      simp only [validateFile] at h
      by_cases hc : (getFileInfo name mime = none ∧ allowedMimeTypes.contains mime = false ∧
          allowedExtensions.contains (extOf name) = false)
      · have hfi := hc.1
        unfold getFileInfo at hfi
        cases h1 : lookupMime mime with
        | some e => rw [h1] at hfi; exact absurd hfi (by simp)
        | none =>
          rw [h1] at hfi
          exact ⟨rfl, hfi⟩
      · rw [if_neg hc] at h
        by_cases hs : sizeLimitFor mime < size
        · rw [if_pos hs] at h
          exact absurd h (by simp)
        · rw [if_neg hs] at h
          exact absurd h (by simp)
    · intro hb
      obtain ⟨h1, h2⟩ := hb
      have hfi : getFileInfo name mime = none := by
        unfold getFileInfo
        rw [h1]
        exact h2
      simp only [validateFile]
      rw [if_pos ⟨hfi, (lookupMime_eq_none_iff mime).mp h1,
        (lookupA_eq_none_iff byExtension (extOf name)).mp h2⟩]
  · intro e he
    unfold getFileInfo
    rw [he]

theorem unsupported_iff_no_resolution_witness :
    (validateFile (s "f.xyz") (s "chemical/x-pdb") 5 = some ValidationError.unsupportedFormat ↔
      (lookupMime (s "chemical/x-pdb") = none ∧
       lookupA byExtension (extOf (s "f.xyz")) = none)) ∧
    getFileInfo (s "f.pkl") (s "text/csv") = some ⟨some (s ".csv"), s "CSV Files", 1⟩ := by
  constructor
  · exact (unsupported_iff_no_resolution (s "f.xyz") (s "chemical/x-pdb") 5).1
  · exact (unsupported_iff_no_resolution (s "f.pkl") (s "text/csv") 0).2 _ (by decide)

/-- Capture list of one regex match (none for an unmatched optional group). -/
abbrev Caps := List (Option Chars)

/-- One piece of a linear regex pattern, covering exactly the constructs used
by MessageParser's regexes: literals, greedy character-class stars and
plusses (the latter capturing), a capturing lazy any-run, an optional
capturing word-run, and a capturing literal-plus-run. -/
inductive Piece where
  | lit : Chars → Piece
  | star : (Char → Bool) → Piece
  | grpPlus : (Char → Bool) → Piece
  | grpLazy : Piece
  | grpOptPlus : (Char → Bool) → Piece
  | grpLitPlus : Chars → (Char → Bool) → Piece

abbrev Pat := List Piece

/-- Backtracking helper: try lengths k, k-1, ..., 0 (greedy preference). -/
def tryDesc (cont : Nat → Option (Nat × Caps)) : Nat → Option (Nat × Caps)
  | 0 => cont 0
  | k + 1 =>
      match cont (k + 1) with
      | some r => some r
      | none => tryDesc cont k

/-- Backtracking helper: try lengths k, k+1, ... within the budget (lazy). -/
def tryAsc (cont : Nat → Option (Nat × Caps)) (k : Nat) : Nat → Option (Nat × Caps)
  | 0 => cont k
  | b + 1 =>
      match cont k with
      | some r => some r
      | none => tryAsc cont (k + 1) b

/-- Match a pattern at the start of the input, JavaScript backtracking order:
piece by piece, greedy pieces longest-first, lazy pieces shortest-first.
Returns consumed length and the captures in group order. The fuel only needs
to dominate the number of pieces. -/
def matchPieces : Nat → Pat → Chars → Option (Nat × Caps)
  | 0, _, _ => none
  | _ + 1, [], _ => some (0, [])
  | fuel + 1, Piece.lit t :: ps, str =>
      if t.isPrefixOf str then
        (matchPieces fuel ps (str.drop t.length)).map fun r => (t.length + r.1, r.2)
      else none
  | fuel + 1, Piece.star f :: ps, str =>
      tryDesc (fun k => (matchPieces fuel ps (str.drop k)).map fun r => (k + r.1, r.2))
        (str.takeWhile f).length
  | fuel + 1, Piece.grpPlus f :: ps, str =>
      tryDesc (fun k =>
          if k = 0 then none
          else (matchPieces fuel ps (str.drop k)).map fun r =>
            (k + r.1, some (str.take k) :: r.2))
        (str.takeWhile f).length
  | fuel + 1, Piece.grpLazy :: ps, str =>
      tryAsc (fun k => (matchPieces fuel ps (str.drop k)).map fun r =>
          (k + r.1, some (str.take k) :: r.2)) 0 str.length
  | fuel + 1, Piece.grpOptPlus f :: ps, str =>
      match tryDesc (fun k =>
          if k = 0 then none
          else (matchPieces fuel ps (str.drop k)).map fun r =>
            (k + r.1, some (str.take k) :: r.2))
        (str.takeWhile f).length with
      | some r => some r
      | none => (matchPieces fuel ps str).map fun r => (r.1, none :: r.2)
  | fuel + 1, Piece.grpLitPlus t f :: ps, str =>
      if t.isPrefixOf str then
        let str2 := str.drop t.length
        tryDesc (fun k =>
            if k = 0 then none
            else (matchPieces fuel ps (str2.drop k)).map fun r =>
              (t.length + k + r.1, some (str.take (t.length + k)) :: r.2))
          (str2.takeWhile f).length
      else none

/-- One regex match: start index, matched length, captures. -/
structure MatchRes where
  idx : Nat
  len : Nat
  caps : Caps
deriving DecidableEq

/-- Leftmost match at or after the current position; the fuel bounds the
number of start positions still to try. -/
def execFrom : Pat → Nat → Chars → Nat → Option MatchRes
  | pat, 0, str, idx =>
      (matchPieces (pat.length + 1) pat str).map fun r => ⟨idx, r.1, r.2⟩
  | pat, fuel + 1, str, idx =>
      match matchPieces (pat.length + 1) pat str with
      | some r => some ⟨idx, r.1, r.2⟩
      | none =>
        match str with
        | [] => none
        | _ :: rest => execFrom pat fuel rest (idx + 1)

/-- JavaScript String.match with a non-global regex: the first match. -/
def execFirst (pat : Pat) (str : Chars) : Option MatchRes := execFrom pat str.length str 0

/-- All matches of a global regex, with absolute indices (every pattern used
here matches at least one character, so the scan always advances). -/
def matchAllF : Pat → Nat → Chars → Nat → List MatchRes
  | _, 0, _, _ => []
  | pat, fuel + 1, str, base =>
      match execFrom pat str.length str 0 with
      | none => []
      | some m =>
        if m.len = 0 then []
        else
          ⟨base + m.idx, m.len, m.caps⟩ ::
            matchAllF pat fuel (str.drop (m.idx + m.len)) (base + m.idx + m.len)

def matchAll (pat : Pat) (str : Chars) : List MatchRes := matchAllF pat (str.length + 1) str 0

/-- JavaScript String.split with a capturing regex: the pieces between
matches interleaved with each match's captures. -/
def splitCaptureGo (str : Chars) : List MatchRes → Nat → List (Option Chars)
  | [], pos => [some (str.drop pos)]
  | m :: ms, pos =>
      some ((str.drop pos).take (m.idx - pos)) ::
        (m.caps ++ splitCaptureGo str ms (m.idx + m.len))

def splitCapture (pat : Pat) (str : Chars) : List (Option Chars) :=
  splitCaptureGo str (matchAll pat str) 0

def notGT (c : Char) : Bool := c != '>'

def notLT (c : Char) : Bool := c != '<'

/-- The word class \w of the code-fence regex. -/
def isWordChar (c : Char) : Bool := c.isAlphanum || c = '_'

/-- The class [^"'\s] of the Base64 split regex. -/
def b64urlChar (c : Char) : Bool := c != '"' && c != '\'' && !isWS c

/-- htmlDivRegex (MessageParser.tsx line 159). -/
def htmlDivPat : Pat :=
  [ Piece.lit (s "<div"), Piece.star notGT, Piece.lit (s "style=\""), Piece.star notQuote,
    Piece.lit (s "position:"), Piece.star isWS, Piece.lit (s "relative"),
    Piece.star notQuote, Piece.lit (s "\""), Piece.star notGT, Piece.lit (s ">"),
    Piece.grpLazy, Piece.lit (s "</div>") ]

/-- Download-link regex (MessageParser.tsx line 179). -/
def downloadLinkPat : Pat :=
  [ Piece.lit (s "<a href=\""), Piece.grpPlus notQuote, Piece.lit (s "\""),
    Piece.star notGT, Piece.lit (s "download=\""), Piece.grpPlus notQuote,
    Piece.lit (s "\""), Piece.star notGT, Piece.lit (s ">"), Piece.grpPlus notLT,
    Piece.lit (s "</a>") ]

/-- Image regex (MessageParser.tsx line 182). -/
def imgPat : Pat :=
  [ Piece.lit (s "<img src=\""), Piece.grpPlus notQuote, Piece.lit (s "\""),
    Piece.star notGT, Piece.lit (s "alt=\""), Piece.grpPlus notQuote, Piece.lit (s "\""),
    Piece.star notGT, Piece.lit (s "/>") ]

/-- Title regex (MessageParser.tsx line 185). -/
def h3Pat : Pat :=
  [ Piece.lit (s "<h3"), Piece.star notGT, Piece.lit (s ">"), Piece.grpPlus notLT,
    Piece.lit (s "</h3>") ]

/-- Base64 split regex (MessageParser.tsx line 129). -/
def base64SplitPat : Pat := [Piece.grpLitPlus pngMarker b64urlChar]

/-- Code-fence regex (MessageParser.tsx line 44). -/
def codeBlockPat : Pat :=
  [ Piece.lit (s "```"), Piece.grpOptPlus isWordChar, Piece.lit (s "\n"), Piece.grpLazy,
    Piece.lit (s "```") ]

/-- Render-level content blocks produced by the parser embedding: prose runs,
bare Base64 images, chart wrappers (download href, download name, optional
title, image src, image alt) and fenced code. -/
inductive Block where
  | text : Chars → Block
  | image : Chars → Block
  | chart : Chars → Chars → Option Chars → Chars → Chars → Block
  | code : Chars → Chars → Block
deriving DecidableEq

def wrapperSig : Chars := s "<div style=\"position: relative"

/-- One part of the Base64 split (MessageParser.tsx lines 132-153). -/
def renderSplitPart (p : Option Chars) : List Block :=
  match p with
  | none => []
  | some part =>
      if pngMarker.isPrefixOf part then [Block.image part]
      else if trimJS part ≠ [] then [Block.text part] else []

/-- The div-matching loop of parseHTMLContent (MessageParser.tsx lines
159-226): leading prose, then per wrapper a chart block — only when both an
image tag and a download link are found inside it — then trailing prose. -/
def divLoop (content : Chars) : List MatchRes → Nat → List Block
  | [], lastIndex =>
      let remaining := content.drop lastIndex
      if trimJS remaining ≠ [] then [Block.text remaining] else []
  | m :: ms, lastIndex =>
      let before := (content.drop lastIndex).take (m.idx - lastIndex)
      let beforeBlocks := if trimJS before ≠ [] then [Block.text before] else []
      let divContent := (m.caps.getD 0 none).getD []
      let dl := execFirst downloadLinkPat divContent
      let im := execFirst imgPat divContent
      let ttl := execFirst h3Pat divContent
      let chartBlocks :=
        match im, dl with
        | some imr, some dlr =>
            [Block.chart ((dlr.caps.getD 0 none).getD []) ((dlr.caps.getD 1 none).getD [])
              (ttl.map fun t => (t.caps.getD 0 none).getD [])
              ((imr.caps.getD 0 none).getD []) ((imr.caps.getD 1 none).getD [])]
        | _, _ => []
      beforeBlocks ++ chartBlocks ++ divLoop content ms (m.idx + m.len)

/-- parseHTMLContent (MessageParser.tsx lines 121-233). -/
def parseHTMLContent (content : Chars) : List Block :=
  if includesSub content pngSig = true ∧ includesSub content wrapperSig = false then
    (splitCapture base64SplitPat content).flatMap renderSplitPart
  else
    let parts := divLoop content (matchAll htmlDivPat content) 0
    if parts = [] then [Block.text content] else parts

/-- One extracted fenced code block (parseMessageWithCode). -/
structure CodeB where
  language : Chars
  code : Chars
deriving DecidableEq

/-- parseMessageWithCode (MessageParser.tsx lines 43-65): the split parts
(with captures) and the extracted code blocks. -/
def parseMessageWithCode (content : Chars) : List (Option Chars) × List CodeB :=
  let ms := matchAll codeBlockPat content
  let codeBlocks := ms.map fun m =>
    CodeB.mk ((m.caps.getD 0 none).getD []) (trimJS ((m.caps.getD 1 none).getD []))
  (splitCapture codeBlockPat content, codeBlocks)

/-- MessageWithCodeBlocks rendering loop (MessageParser.tsx lines 82-118). -/
def mwcGo : List (Option Chars) → Nat → Nat → List CodeB → List Block
  | [], _, _, _ => []
  | p :: ps, idx, cbIdx, cbs =>
      if idx % 3 = 0 then
        (match p with
         | some t => if trimJS t ≠ [] then [Block.text t] else []
         | none => []) ++ mwcGo ps (idx + 1) cbIdx cbs
      else if idx % 3 = 2 then
        (match cbs.get? cbIdx with
         | some cb => [Block.code cb.language cb.code]
         | none => []) ++ mwcGo ps (idx + 1) (cbIdx + 1) cbs
      else mwcGo ps (idx + 1) cbIdx cbs

/-- The AIMessage dispatch (MessageParser.tsx lines 241-263). -/
def aIMessage (content : Chars) : List Block :=
  if includesSub content wrapperSig = true ∨ includesSub content pngSig = true then
    parseHTMLContent content
  else
    let pm := parseMessageWithCode content
    if pm.2 ≠ [] then mwcGo pm.1 0 0 pm.2
    else [Block.text content]

/-- C7 counterexample: a wrapper carrying an image but no download link emits
no EmbeddedImage block at all — the download link is required, not optional;
only the surrounding prose survives. -/
theorem wrapper_without_link_yields_no_image :
    aIMessage (s "Intro <div style=\"position: relative\"><img src=\"u\" alt=\"a\"/></div> End") =
      [Block.text (s "Intro "), Block.text (s " End")] := by
  decide

/-- The captured inner content of one wrapper match (group 1 of htmlDivRegex). -/
def divContentOf (m : MatchRes) : Chars := (m.caps.getD 0 none).getD []

/-- The chart blocks one wrapper match contributes: exactly one, built from
the captured link href, download name, optional title, image src and alt,
when both the image regex and the download-link regex match its content;
none otherwise. -/
def divChart (m : MatchRes) : List Block :=
  match execFirst imgPat (divContentOf m), execFirst downloadLinkPat (divContentOf m) with
  | some imr, some dlr =>
      [Block.chart ((dlr.caps.getD 0 none).getD []) ((dlr.caps.getD 1 none).getD [])
        ((execFirst h3Pat (divContentOf m)).map fun t => (t.caps.getD 0 none).getD [])
        ((imr.caps.getD 0 none).getD []) ((imr.caps.getD 1 none).getD [])]
  | _, _ => []

def isChartB : Block → Bool
  | Block.chart .. => true
  | _ => false

theorem divLoop_filter_charts (content : Chars) : ∀ (ms : List MatchRes) (li : Nat),
    (divLoop content ms li).filter isChartB = ms.flatMap divChart := by
  intro ms
  induction ms with
  | nil =>
    intro li
    simp only [divLoop, List.flatMap_nil]
    by_cases h : trimJS (content.drop li) ≠ []
    · rw [if_pos h]; rfl
    · rw [if_neg h]; rfl
  | cons m ms ih =>
    intro li
    simp only [divLoop, List.flatMap_cons]
    rw [List.filter_append, List.filter_append, ih]
    have hbefore :
        (if trimJS ((content.drop li).take (m.idx - li)) ≠ []
          then [Block.text ((content.drop li).take (m.idx - li))] else []).filter isChartB
          = [] := by
      by_cases h : trimJS ((content.drop li).take (m.idx - li)) ≠ []
      · rw [if_pos h]; rfl
      · rw [if_neg h]; rfl
    rw [hbefore]
    have hchart :
        (match execFirst imgPat (divContentOf m), execFirst downloadLinkPat (divContentOf m) with
         | some imr, some dlr =>
            [Block.chart ((dlr.caps.getD 0 none).getD []) ((dlr.caps.getD 1 none).getD [])
              ((execFirst h3Pat (divContentOf m)).map fun t : MatchRes =>
                (t.caps.getD 0 none).getD [])
              ((imr.caps.getD 0 none).getD []) ((imr.caps.getD 1 none).getD [])]
         | _, _ => ([] : List Block)).filter isChartB = divChart m := by
      unfold divChart
      cases execFirst imgPat (divContentOf m) <;>
        cases execFirst downloadLinkPat (divContentOf m) <;> rfl
    rw [show ((m.caps.getD 0 none).getD []) = divContentOf m from rfl] at *
    rw [hchart]
    simp

theorem divLoop_blocks_shape (content : Chars) : ∀ (ms : List MatchRes) (li : Nat),
    ∀ b ∈ divLoop content ms li, isChartB b = true ∨ ∃ t, b = Block.text t := by
  intro ms
  induction ms with
  | nil =>
    intro li b hb
    simp only [divLoop] at hb
    by_cases h : trimJS (content.drop li) ≠ []
    · rw [if_pos h] at hb
      rcases List.mem_singleton.mp hb with rfl
      exact Or.inr ⟨_, rfl⟩
    · rw [if_neg h] at hb
      cases hb
  | cons m ms ih =>
    intro li b hb
    simp only [divLoop] at hb
    rw [List.mem_append, List.mem_append] at hb
    rcases hb with (hb | hb) | hb
    · by_cases h : trimJS ((content.drop li).take (m.idx - li)) ≠ []
      · rw [if_pos h] at hb
        rcases List.mem_singleton.mp hb with rfl
        exact Or.inr ⟨_, rfl⟩
      · rw [if_neg h] at hb
        cases hb
    · cases him : execFirst imgPat ((m.caps.getD 0 none).getD []) with
      | none => rw [him] at hb; cases hb
      | some imr =>
        cases hdl : execFirst downloadLinkPat ((m.caps.getD 0 none).getD []) with
        | none => rw [him, hdl] at hb; cases hb
        | some dlr =>
          rw [him, hdl] at hb
          rcases List.mem_singleton.mp hb with rfl
          exact Or.inl rfl
    · exact ih _ b hb

/-- C7 amended, settled universally: in wrapper mode the EmbeddedImage blocks
of the output are exactly the per-wrapper charts of those matches whose inner
content carries both an image tag and a download link, in match order and
built from the captured href, download name, optional title, image src and
alt; a wrapper lacking the image tag or the download link contributes no
EmbeddedImage block; every other emitted block is prose. -/
theorem wrapper_parse_link_required (content : Chars)
    (h1 : includesSub content wrapperSig = true) :
    (aIMessage content).filter isChartB = (matchAll htmlDivPat content).flatMap divChart ∧
    (∀ m : MatchRes, execFirst downloadLinkPat (divContentOf m) = none → divChart m = []) ∧
    (∀ m : MatchRes, execFirst imgPat (divContentOf m) = none → divChart m = []) ∧
    (∀ b ∈ aIMessage content, isChartB b = true ∨ ∃ t, b = Block.text t) := by
  have hgate : aIMessage content = parseHTMLContent content := by
    unfold aIMessage
    rw [if_pos (Or.inl h1)]
  have hc : ¬(includesSub content pngSig = true ∧ includesSub content wrapperSig = false) := by
    intro hh
    rw [h1] at hh
    cases hh.2
  have hbranch : parseHTMLContent content =
      (if divLoop content (matchAll htmlDivPat content) 0 = []
       then [Block.text content]
       else divLoop content (matchAll htmlDivPat content) 0) := by
    unfold parseHTMLContent
    rw [if_neg hc]
  refine ⟨?_, ?_, ?_, ?_⟩
  · rw [hgate, hbranch]
    by_cases hp : divLoop content (matchAll htmlDivPat content) 0 = []
    · rw [if_pos hp, ← divLoop_filter_charts content (matchAll htmlDivPat content) 0, hp]
      rfl
    · rw [if_neg hp]
      exact divLoop_filter_charts content (matchAll htmlDivPat content) 0
  · intro m hm
    unfold divChart
    rw [hm]
    cases execFirst imgPat (divContentOf m) <;> rfl
  · intro m hm
    unfold divChart
    rw [hm]
  · intro b hb
    rw [hgate, hbranch] at hb
    by_cases hp : divLoop content (matchAll htmlDivPat content) 0 = []
    · rw [if_pos hp] at hb
      rcases List.mem_singleton.mp hb with rfl
      exact Or.inr ⟨_, rfl⟩
    · rw [if_neg hp] at hb
      exact divLoop_blocks_shape content (matchAll htmlDivPat content) 0 b hb

theorem wrapper_parse_link_required_witness :
    (aIMessage (s "A <div style=\"position: relative\"><h3>T</h3><img src=\"u\" alt=\"a\"/><a href=\"h\" download=\"d\">get</a></div> B")).filter isChartB =
      (matchAll htmlDivPat (s "A <div style=\"position: relative\"><h3>T</h3><img src=\"u\" alt=\"a\"/><a href=\"h\" download=\"d\">get</a></div> B")).flatMap divChart ∧
    aIMessage (s "A <div style=\"position: relative\"><h3>T</h3><img src=\"u\" alt=\"a\"/><a href=\"h\" download=\"d\">get</a></div> B") =
      [Block.text (s "A "), Block.chart (s "h") (s "d") (some (s "T")) (s "u") (s "a"),
       Block.text (s " B")] := by
  refine ⟨(wrapper_parse_link_required _ (by decide)).1, by decide⟩

end Datasoph
